import Mathlib

/-!
# Verification of `src/routing.js` (smart-traffic-backend)

Shallow embedding of the route-computation core in `src/routing.js`:
nearest-node snapping, edge-cost model (traffic and flood penalties),
selection-based Dijkstra search, and path reconstruction.

Modelling conventions:

* JS numbers that occur in this code are either finite values or
  `Infinity`; they are modelled by `NumV` (a rational or `inf`) with the
  JS comparison semantics (`Infinity < x` is false, `x < Infinity` is
  true for finite `x`, `Infinity + x = Infinity`).  Floating-point
  rounding is out of scope; arithmetic is exact rational arithmetic.
* JS objects used as string-keyed dictionaries (`trafficMap`, `adj`,
  `dist`, `prev`, and the `nodes` map) are modelled as association
  lists in key-insertion order; property assignment replaces the value
  in place for an existing key and appends a new key at the end, which
  matches JS enumeration order for the non-integer-like keys used here.
  The `nodes` object is keyed by node id (as built by the caller in
  `index.js`: `nodes[doc.id] = { id: doc.id, ... }`).
* The code's `haversine` is a transcendental function of the
  coordinates and has no exact executable embedding; the model takes
  the distance function `hav` as an explicit parameter.  No claim
  depends on its numeric values (the relevant property, nonnegativity,
  is taken as a hypothesis where needed, and concrete instantiations
  use the executable function `havLin` below).
* The `while (true)` search loop and the `while (cur)` reconstruction
  loop are given explicit fuel `nodes.length + 1`; `computeSafeRoute`
  returns `none` exactly when a loop would not have finished within
  that fuel (for the search loop this never happens, which is proved
  below; the reconstruction loop can genuinely diverge in JS when
  negative edge costs create a predecessor cycle).
-/

namespace SmartTraffic

/-- A `{lat, lng}` pair (coordinates as exact rationals). -/
structure Point where
  lat : ℚ
  lng : ℚ
deriving DecidableEq, Repr

/-- A neighbor entry of a road node: the JS data may hold either a plain
id string or a nested object exposing an `id` field
(`typeof m === "string" ? m : m.id` in `computeSafeRoute`). -/
inductive NeighborRef where
  | strId (s : String)
  | objId (s : String)
deriving DecidableEq, Repr

/-- The id a neighbor entry denotes (`typeof m === "string" ? m : m.id`). -/
def NeighborRef.toId : NeighborRef → String
  | .strId s => s
  | .objId s => s

/-- A road node: id, coordinates, neighbor list. -/
structure Node where
  id : String
  lat : ℚ
  lng : ℚ
  neighbors : List NeighborRef
deriving DecidableEq, Repr

/-- A raw traffic record (`t.congestionScore ?? t.score ?? 0` is read
from it); `none` models a nullish (absent) field. -/
structure TrafficRecord where
  edgeId : String
  congestionScore : Option ℚ
  score : Option ℚ
deriving DecidableEq, Repr

/-- A flood zone: polygon vertices plus optional severity
(`f.severity || 1` is read from it); a missing polygon behaves like
`[]` (the `Array.isArray`/length guard rejects both). -/
structure FloodZone where
  polygon : List Point
  severity : Option ℚ
deriving DecidableEq, Repr

/-- The JS number values flowing through the search: a finite value or
`Infinity`. -/
inductive NumV where
  | inf : NumV
  | fin : ℚ → NumV
deriving DecidableEq, Repr

/-- JS addition on these values (`Infinity + x = Infinity`). -/
def NumV.add : NumV → NumV → NumV
  | .inf, _ => .inf
  | .fin _, .inf => .inf
  | .fin a, .fin b => .fin (a + b)

/-- JS `<` on these values (`Infinity < x` is false; `x < Infinity` is
true for finite `x`). -/
def NumV.lt : NumV → NumV → Bool
  | .inf, _ => false
  | .fin _, .inf => true
  | .fin a, .fin b => decide (a < b)

/-- Nonnegativity of a search value (`Infinity` counts as nonnegative). -/
def NumV.nonneg : NumV → Prop
  | .inf => True
  | .fin q => 0 ≤ q

/-- The order on search values used to state cost comparisons
(`Infinity` is the top value, finite values compare as rationals). -/
def NumV.le : NumV → NumV → Prop
  | _, .inf => True
  | .inf, .fin _ => False
  | .fin a, .fin b => a ≤ b

/-- Every tentative distance stored in a distance map is nonnegative. -/
def distNonneg (m : List (String × NumV)) : Prop :=
  ∀ p ∈ m, NumV.nonneg p.2

/-- The observable core of a node for everything except adjacency:
its id and coordinates (the fields `closestNode`, `edgeCost` and path
reconstruction read). -/
def nodeCore (n : Node) : String × ℚ × ℚ :=
  (n.id, n.lat, n.lng)

/-- Dictionary read `m[k]` (first — and only — entry with that key). -/
def getVal {α : Type} (m : List (String × α)) (k : String) : Option α :=
  (m.find? (fun p => p.1 = k)).map (fun p => p.2)

/-- Dictionary write `m[k] = v`: replace in place if the key exists,
otherwise append (JS enumeration-order semantics for string keys). -/
def setVal {α : Type} (m : List (String × α)) (k : String) (v : α) :
    List (String × α) :=
  if (m.find? (fun p => p.1 = k)).isSome then
    m.map (fun p => if p.1 = k then (k, v) else p)
  else
    m ++ [(k, v)]

/-- Node-map read `nodes[id]` (the object is keyed by node id). -/
def lookupNode (nodes : List Node) (id : String) : Option Node :=
  nodes.find? (fun n => n.id = id)

/-- A concrete executable stand-in distance function used to instantiate
the `hav` parameter in witnesses and counterexamples (like the code's
haversine it is nonnegative, zero on the diagonal, and symmetric). -/
def havLin (p q : Point) : ℚ :=
  |p.lat - q.lat| + |p.lng - q.lng|

/-- `pointInPolygon`'s per-edge step: the body of the ray-casting loop
for the vertex pair `(polygon[i], polygon[j])`. -/
def pipStep (x y : ℚ) (pi pj : Point) (inside : Bool) : Bool :=
  let xi := pi.lng
  let yi := pi.lat
  let xj := pj.lng
  let yj := pj.lat
  if (decide (yi > y) != decide (yj > y)) &&
      decide (x < (xj - xi) * (y - yi) / (yj - yi) + xi) then
    !inside
  else
    inside

/-- `pointInPolygon(point, polygon)`: even-odd ray casting; polygons
with fewer than 3 vertices never contain a point.  The loop visits the
index pairs `(0, n-1), (1, 0), …, (n-1, n-2)`; every index is in range,
so the `getD` defaults are never used. -/
def pointInPolygon (point : Point) (polygon : List Point) : Bool :=
  if polygon.length < 3 then false
  else
    (List.range polygon.length).foldl
      (fun inside i =>
        let pi := polygon.getD i ⟨0, 0⟩
        let pj := polygon.getD (if i = 0 then polygon.length - 1 else i - 1) ⟨0, 0⟩
        pipStep point.lng point.lat pi pj inside)
      false

/-- The value a traffic record contributes:
`t.congestionScore ?? t.score ?? 0`. -/
def trafficValue (t : TrafficRecord) : ℚ :=
  ((t.congestionScore).orElse (fun _ => t.score)).getD 0

/-- The `trafficMap` built at the top of `computeSafeRoute`: records
with a falsy `edgeId` (empty string / nullish) are skipped, later
records overwrite earlier ones with the same key. -/
def buildTrafficMap (trafficList : List TrafficRecord) : List (String × ℚ) :=
  trafficList.foldl
    (fun m t => if t.edgeId = "" then m else setVal m t.edgeId (trafficValue t))
    []

/-- `closestNode(point)`: linear scan keeping the node with strictly
smaller distance; `bestDist` starts at `Infinity`, `best` at `null`. -/
def closestNode (hav : Point → Point → ℚ) (nodeArray : List Node)
    (point : Point) : Option Node :=
  (nodeArray.foldl
    (fun (acc : Option Node × NumV) n =>
      let d : NumV := .fin (hav point ⟨n.lat, n.lng⟩)
      if d.lt acc.2 then (some n, d) else acc)
    (none, .inf)).1

/-- The adjacency object: `adj[n.id] = (n.neighbors || []).map(...)`. -/
def buildAdj (nodeArray : List Node) : List (String × List String) :=
  nodeArray.foldl
    (fun m n => setVal m n.id (n.neighbors.map NeighborRef.toId))
    []

/-- Congestion read in `edgeCost`:
`trafficMap[aId_bId] ?? trafficMap[bId_aId] ?? 0`. -/
def trafficOf (trafficMap : List (String × ℚ)) (aId bId : String) : ℚ :=
  ((getVal trafficMap (aId ++ "_" ++ bId)).orElse
    (fun _ => getVal trafficMap (bId ++ "_" ++ aId))).getD 0

/-- The effective severity in the flood penalty: `f.severity || 1`
(a nullish or zero severity is falsy and defaults to 1; any other
stored value — including a negative one — is used as-is). -/
def effSeverity (s : Option ℚ) : ℚ :=
  match s with
  | none => 1
  | some v => if v = 0 then 1 else v

/-- One iteration of the flood-penalty loop in `edgeCost`:
`if (pointInPolygon(mid, f.polygon)) base *= (1 + 5 * (f.severity || 1))`. -/
def floodStep (mid : Point) (base : ℚ) (f : FloodZone) : ℚ :=
  if pointInPolygon mid f.polygon then base * (1 + 5 * effSeverity f.severity)
  else base

/-- `edgeCost(aId, bId)`: infinite when either endpoint is missing from
the node map; otherwise haversine base times the traffic multiplier
`(1 + 2 * traffic)` times one flood multiplier per zone containing the
edge midpoint. -/
def edgeCost (hav : Point → Point → ℚ) (nodes : List Node)
    (trafficMap : List (String × ℚ)) (floodsList : List FloodZone)
    (aId bId : String) : NumV :=
  match lookupNode nodes aId, lookupNode nodes bId with
  | some a, some b =>
    let base := hav ⟨a.lat, a.lng⟩ ⟨b.lat, b.lng⟩
    let base := base * (1 + 2 * trafficOf trafficMap aId bId)
    let mid : Point := ⟨(a.lat + b.lat) / 2, (a.lng + b.lng) / 2⟩
    .fin (floodsList.foldl (floodStep mid) base)
  | _, _ => .inf

/-- The mutable search state: tentative distances, predecessor map, and
the visited set (modelled as the list of visited ids). -/
structure DState where
  dist : List (String × NumV)
  prev : List (String × Option String)
  visited : List String
deriving DecidableEq, Repr

/-- Distance read `dist[k]` during the search (every id read is a key
of `dist`; the `Infinity` default mirrors the fact that the JS
comparison against `undefined` could never enable an update either,
because `edgeCost` is already infinite for ids outside the node map). -/
def lookupD (dist : List (String × NumV)) (k : String) : NumV :=
  ((dist.find? (fun p => p.1 = k)).map (fun p => p.2)).getD .inf

/-- `extractMin()`: scan the keys of `dist` in insertion order, keeping
the first unvisited key and then any unvisited key with strictly
smaller distance. -/
def extractMin (dist : List (String × NumV)) (visited : List String) :
    Option String :=
  dist.foldl
    (fun best p =>
      if p.1 ∈ visited then best
      else
        match best with
        | none => some p.1
        | some b => if (lookupD dist p.1).lt (lookupD dist b) then some p.1 else best)
    none

/-- One relaxation `v` of the loop `for (const v of adj[u] || [])`:
skip visited nodes, otherwise update `dist[v]`/`prev[v]` when
`dist[u] + edgeCost(u, v) < dist[v]`. -/
def relaxOne (hav : Point → Point → ℚ) (nodes : List Node)
    (trafficMap : List (String × ℚ)) (floodsList : List FloodZone)
    (u : String) (st : DState) (v : String) : DState :=
  if v ∈ st.visited then st
  else
    let alt := (lookupD st.dist u).add (edgeCost hav nodes trafficMap floodsList u v)
    if alt.lt (lookupD st.dist v) then
      { dist := setVal st.dist v alt
        prev := setVal st.prev v (some u)
        visited := st.visited }
    else st

/-- One full search iteration on the selected node `u`:
`visited.add(u)` followed by relaxing every outgoing edge. -/
def dijkstraVisit (hav : Point → Point → ℚ) (nodes : List Node)
    (trafficMap : List (String × ℚ)) (floodsList : List FloodZone)
    (adj : List (String × List String)) (u : String) (st : DState) : DState :=
  ((getVal adj u).getD []).foldl
    (relaxOne hav nodes trafficMap floodsList u)
    { st with visited := u :: st.visited }

/-- The `while (true)` search loop, with explicit fuel: returns the
state at the `break` (no unvisited node left, or the destination
selected), or `none` if the fuel runs out first. -/
def dijkstraLoop (hav : Point → Point → ℚ) (nodes : List Node)
    (trafficMap : List (String × ℚ)) (floodsList : List FloodZone)
    (adj : List (String × List String)) (endId : String) :
    Nat → DState → Option DState
  | 0, _ => none
  | fuel + 1, st =>
    match extractMin st.dist st.visited with
    | none => some st
    | some u =>
      if u = endId then some st
      else
        dijkstraLoop hav nodes trafficMap floodsList adj endId fuel
          (dijkstraVisit hav nodes trafficMap floodsList adj u st)

/-- The initial `dist` object: `Infinity` for every node id (in
`nodeArray` order), then `dist[startId] = 0`. -/
def initDist (nodeArray : List Node) (startId : String) : List (String × NumV) :=
  setVal (nodeArray.foldl (fun m n => setVal m n.id NumV.inf) []) startId (.fin 0)

/-- The initial `prev` object: `null` for every node id. -/
def initPrev (nodeArray : List Node) : List (String × Option String) :=
  nodeArray.foldl (fun m n => setVal m n.id (none : Option String)) []

/-- The reconstruction loop `while (cur) { path.unshift(nodes[cur]);
cur = prev[cur]; }`, with explicit fuel.  `cur` is falsy when it is
`null` or the empty string.  `none` models the two situations in which
the JS loop would not produce a clean list: fuel exhaustion (a
predecessor cycle, on which JS diverges) and a missing node for `cur`
(on which JS would push `undefined` and the later `.map` would throw);
neither occurs for the states `computeSafeRoute` actually builds. -/
def walkPrev (nodes : List Node) (prev : List (String × Option String)) :
    Nat → Option String → List Node → Option (List Node)
  | 0, _, _ => none
  | _ + 1, none, acc => some acc
  | fuel + 1, some cur, acc =>
    if cur = "" then some acc
    else
      match lookupNode nodes cur with
      | none => none
      | some n => walkPrev nodes prev fuel ((getVal prev cur).getD none) (n :: acc)

/-- One entry of the returned path: `{ lat: n.lat, lng: n.lng, id: n.id }`. -/
structure PathPoint where
  lat : ℚ
  lng : ℚ
  id : String
deriving DecidableEq, Repr

/-- The object returned by `computeSafeRoute`; `none` in `start`/`end`
models the explicit `null`s of the empty-graph result, and `none` in
`distance_m` models the field being absent. -/
structure RouteResult where
  start : Option String
  «end» : Option String
  distance_m : Option ℚ
  path : List PathPoint
deriving DecidableEq, Repr

/-- `computeSafeRoute(nodes, trafficList, floodsList, srcPoint,
dstPoint)`.  The outer `none` marks a run on which a JS loop would not
have terminated within fuel `nodes.length + 1` (proved impossible for
the search loop below). -/
def computeSafeRoute (hav : Point → Point → ℚ) (nodes : List Node)
    (trafficList : List TrafficRecord) (floodsList : List FloodZone)
    (srcPoint dstPoint : Point) : Option RouteResult :=
  let trafficMap := buildTrafficMap trafficList
  match closestNode hav nodes srcPoint, closestNode hav nodes dstPoint with
  | some start, some endNode =>
    let adj := buildAdj nodes
    let st0 : DState := ⟨initDist nodes start.id, initPrev nodes, []⟩
    match dijkstraLoop hav nodes trafficMap floodsList adj endNode.id
        (nodes.length + 1) st0 with
    | none => none
    | some st =>
      match lookupD st.dist endNode.id with
      | .inf => some ⟨some start.id, some endNode.id, none, []⟩
      | .fin d =>
        match walkPrev nodes st.prev (nodes.length + 1) (some endNode.id) [] with
        | none => none
        | some pathNodes =>
          some ⟨some start.id, some endNode.id, some d,
            pathNodes.map (fun n => ⟨n.lat, n.lng, n.id⟩)⟩
  | _, _ => some ⟨none, none, none, []⟩

end SmartTraffic

namespace SmartTraffic


/-! ## Association-map lemmas -/

theorem mem_setVal {α : Type} {m : List (String × α)} {k : String} {v : α}
    {p : String × α} (hp : p ∈ setVal m k v) : p ∈ m ∨ p = (k, v) := by
  unfold setVal at hp
  split at hp
  · rcases List.mem_map.mp hp with ⟨q, hq, hqe⟩
    by_cases hqk : q.1 = k
    · right
      simpa [hqk] using hqe.symm
    · left
      rw [if_neg hqk] at hqe
      exact hqe ▸ hq
  · rcases List.mem_append.mp hp with h | h
    · exact Or.inl h
    · exact Or.inr (List.mem_singleton.mp h)

theorem getVal_setVal_self {α : Type} (m : List (String × α)) (k : String) (v : α) :
    getVal (setVal m k v) k = some v := by
  unfold setVal
  split
  case isTrue h =>
    induction m with
    | nil => simp at h
    | cons p m ih =>
      by_cases hpk : p.1 = k
      · simp [getVal, List.find?, hpk]
      · have h' : (m.find? (fun q => q.1 = k)).isSome := by
          simpa [List.find?_cons_of_neg, hpk] using h
        simpa [getVal, List.find?_cons_of_neg, hpk] using ih h'
  case isFalse h =>
    unfold getVal
    rw [List.find?_append]
    have hnone : m.find? (fun p => p.1 = k) = none :=
      Option.not_isSome_iff_eq_none.mp h
    simp [hnone, List.find?]

theorem getVal_setVal_ne {α : Type} (m : List (String × α)) (k : String) (v : α)
    (u : String) (huk : u ≠ k) :
    getVal (setVal m k v) u = getVal m u := by
  unfold setVal
  split
  case isTrue h =>
    clear h
    induction m with
    | nil => simp [getVal]
    | cons p m ih =>
      rw [List.map_cons]
      by_cases hpk : p.1 = k
      · have hku : ¬ ((k : String) = u) := fun h => huk h.symm
        have hpu : ¬ (p.1 = u) := fun h => hku (hpk ▸ h)
        rw [if_pos hpk]
        unfold getVal
        rw [List.find?_cons_of_neg _ (by simpa using hku),
          List.find?_cons_of_neg _ (by simpa using hpu)]
        simpa [getVal] using ih
      · rw [if_neg hpk]
        by_cases hpu : p.1 = u
        · unfold getVal
          rw [List.find?_cons_of_pos _ (by simpa using hpu),
            List.find?_cons_of_pos _ (by simpa using hpu)]
        · unfold getVal
          rw [List.find?_cons_of_neg _ (by simpa using hpu),
            List.find?_cons_of_neg _ (by simpa using hpu)]
          simpa [getVal] using ih
  case isFalse h =>
    unfold getVal
    rw [List.find?_append]
    have hku : ¬ ((k : String) = u) := fun h => huk h.symm
    have hone : List.find? (fun p : String × α => (p.1 = u : Bool)) [(k, v)] = none := by
      rw [List.find?_cons_of_neg _ (by simpa using hku), List.find?_nil]
    simp [hone]

theorem setVal_keys {α : Type} (m : List (String × α)) (k : String) (v : α) :
    (setVal m k v).map Prod.fst =
      if (m.find? (fun p => p.1 = k)).isSome then m.map Prod.fst
      else m.map Prod.fst ++ [k] := by
  unfold setVal
  split
  · rw [List.map_map]
    refine List.map_congr_left (fun p _ => ?_)
    by_cases hpk : p.1 = k
    · simp [hpk]
    · simp [hpk]
  · simp

theorem getVal_some_mem {α : Type} {m : List (String × α)} {k : String} {v : α}
    (h : getVal m k = some v) : (k, v) ∈ m := by
  unfold getVal at h
  rcases Option.map_eq_some'.mp h with ⟨p, hp, hpe⟩
  have hk : p.1 = k := by simpa using List.find?_some hp
  have := List.mem_of_find?_eq_some hp
  rwa [show p = (k, v) from Prod.ext hk hpe] at this


/-! ## Traffic-map value lemmas -/

theorem trafficValue_spec (t : TrafficRecord) :
    trafficValue t = 0 ∨ t.congestionScore = some (trafficValue t) ∨
      t.score = some (trafficValue t) := by
  unfold trafficValue
  cases hc : t.congestionScore with
  | some q => right; left; simp [hc, Option.orElse]
  | none =>
    cases hs : t.score with
    | some q => right; right; simp [hc, hs, Option.orElse]
    | none => left; simp [hc, hs, Option.orElse]

theorem buildTrafficMap_foldl_forall (P : ℚ → Prop) (hP0 : P 0) :
    ∀ (ts : List TrafficRecord) (acc : List (String × ℚ)),
      (∀ t ∈ ts, ∀ q : ℚ, t.congestionScore = some q ∨ t.score = some q → P q) →
      (∀ p ∈ acc, P p.2) →
      ∀ p ∈ ts.foldl (fun m t => if t.edgeId = "" then m
        else setVal m t.edgeId (trafficValue t)) acc, P p.2 := by
  intro ts
  induction ts with
  | nil => intro acc _ hacc p hp; exact hacc p hp
  | cons t ts ih =>
    intro acc h hacc p hp
    rw [List.foldl_cons] at hp
    refine ih _ (fun t' ht' q hq => h t' (List.mem_cons_of_mem _ ht') q hq) ?_ p hp
    intro q hq
    split at hq
    · exact hacc q hq
    · rcases mem_setVal hq with h1 | h1
      · exact hacc q h1
      · rw [h1]
        rcases trafficValue_spec t with h2 | h2 | h2
        · show P (trafficValue t)
          rw [h2]; exact hP0
        · exact h t (List.mem_cons_self t ts) _ (Or.inl h2)
        · exact h t (List.mem_cons_self t ts) _ (Or.inr h2)

theorem buildTrafficMap_forall (P : ℚ → Prop) (hP0 : P 0)
    (ts : List TrafficRecord)
    (h : ∀ t ∈ ts, ∀ q : ℚ, t.congestionScore = some q ∨ t.score = some q → P q) :
    ∀ p ∈ buildTrafficMap ts, P p.2 :=
  buildTrafficMap_foldl_forall P hP0 ts [] h (by intro p hp; simp at hp)

/-! ## Flood factor lemmas -/

theorem floodStep_factor (mid : Point) (b : ℚ) (f : FloodZone) :
    floodStep mid b f =
      b * (if pointInPolygon mid f.polygon then 1 + 5 * effSeverity f.severity
        else 1) := by
  unfold floodStep
  split <;> ring

theorem foldl_floodStep_eq (mid : Point) (l : List FloodZone) :
    ∀ b : ℚ, l.foldl (floodStep mid) b =
      b * (l.map (fun f => if pointInPolygon mid f.polygon
        then 1 + 5 * effSeverity f.severity else 1)).prod := by
  induction l with
  | nil => intro b; simp
  | cons f l ih =>
    intro b
    rw [List.foldl_cons, ih, floodStep_factor, List.map_cons, List.prod_cons]
    ring

theorem effSeverity_nonneg {s : Option ℚ} (h : ∀ v, s = some v → 0 ≤ v) :
    0 ≤ effSeverity s := by
  unfold effSeverity
  cases s with
  | none => norm_num
  | some v =>
    by_cases hv : v = 0
    · simp [hv]
    · simpa [hv] using h v rfl

theorem floodFactor_nonneg (mid : Point) (l : List FloodZone)
    (h : ∀ f ∈ l, ∀ s, f.severity = some s → 0 ≤ s) :
    0 ≤ (l.map (fun f => if pointInPolygon mid f.polygon
      then 1 + 5 * effSeverity f.severity else 1)).prod := by
  apply List.prod_nonneg
  intro x hx
  rcases List.mem_map.mp hx with ⟨f, hf, rfl⟩
  split
  · have := effSeverity_nonneg (fun v hv => h f hf v hv)
    linarith
  · norm_num

theorem trafficOf_nonneg {tm : List (String × ℚ)} (htm : ∀ p ∈ tm, 0 ≤ p.2)
    (aId bId : String) : 0 ≤ trafficOf tm aId bId := by
  unfold trafficOf
  cases h1 : getVal tm (aId ++ "_" ++ bId) with
  | some v =>
    have := htm _ (getVal_some_mem h1)
    simpa [Option.orElse] using this
  | none =>
    cases h2 : getVal tm (bId ++ "_" ++ aId) with
    | some v =>
      have := htm _ (getVal_some_mem h2)
      simpa [Option.orElse] using this
    | none => simp [Option.orElse]

theorem edgeCost_eq_fin (hav : Point → Point → ℚ) (nodes : List Node)
    (tm : List (String × ℚ)) (fl : List FloodZone) (aId bId : String)
    (a b : Node) (ha : lookupNode nodes aId = some a)
    (hb : lookupNode nodes bId = some b) :
    edgeCost hav nodes tm fl aId bId =
      .fin ((hav ⟨a.lat, a.lng⟩ ⟨b.lat, b.lng⟩ * (1 + 2 * trafficOf tm aId bId)) *
        (fl.map (fun f =>
          if pointInPolygon ⟨(a.lat + b.lat) / 2, (a.lng + b.lng) / 2⟩ f.polygon
          then 1 + 5 * effSeverity f.severity else 1)).prod) := by
  unfold edgeCost
  rw [ha, hb]
  simp only [foldl_floodStep_eq]


/-! ## Nonnegativity invariants for the search -/

theorem numV_add_nonneg {a b : NumV} (ha : a.nonneg) (hb : b.nonneg) :
    (a.add b).nonneg := by
  cases a with
  | inf => exact trivial
  | fin x =>
    cases b with
    | inf => exact trivial
    | fin y =>
      show (0 : ℚ) ≤ x + y
      exact add_nonneg ha hb

theorem lookupD_nonneg {m : List (String × NumV)} (h : distNonneg m) (k : String) :
    (lookupD m k).nonneg := by
  unfold lookupD
  cases hf : m.find? (fun p => p.1 = k) with
  | none => exact trivial
  | some p =>
    simpa using h p (List.mem_of_find?_eq_some hf)

theorem distNonneg_setVal {m : List (String × NumV)} (h : distNonneg m)
    {v : NumV} (hv : v.nonneg) (k : String) : distNonneg (setVal m k v) := by
  intro p hp
  rcases mem_setVal hp with h1 | h1
  · exact h p h1
  · rw [h1]
    exact hv

theorem edgeCost_nonneg (hav : Point → Point → ℚ) (nodes : List Node)
    (tm : List (String × ℚ)) (fl : List FloodZone) (aId bId : String)
    (hhav : ∀ p q : Point, 0 ≤ hav p q)
    (htm : ∀ p ∈ tm, 0 ≤ p.2)
    (hfl : ∀ f ∈ fl, ∀ s, f.severity = some s → 0 ≤ s) :
    (edgeCost hav nodes tm fl aId bId).nonneg := by
  cases ha : lookupNode nodes aId with
  | none =>
    unfold edgeCost
    rw [ha]
    exact trivial
  | some a =>
    cases hb : lookupNode nodes bId with
    | none =>
      unfold edgeCost
      rw [ha, hb]
      exact trivial
    | some b =>
      rw [edgeCost_eq_fin hav nodes tm fl aId bId a b ha hb]
      show (0 : ℚ) ≤ _
      have h1 : 0 ≤ 1 + 2 * trafficOf tm aId bId := by
        have := trafficOf_nonneg htm aId bId
        linarith
      exact mul_nonneg (mul_nonneg (hhav _ _) h1) (floodFactor_nonneg _ fl hfl)

theorem relaxOne_dist_distNonneg (hav : Point → Point → ℚ) (nodes : List Node)
    (tm : List (String × ℚ)) (fl : List FloodZone) (u : String)
    (hhav : ∀ p q : Point, 0 ≤ hav p q)
    (htm : ∀ p ∈ tm, 0 ≤ p.2)
    (hfl : ∀ f ∈ fl, ∀ s, f.severity = some s → 0 ≤ s)
    (st : DState) (h : distNonneg st.dist) (v : String) :
    distNonneg (relaxOne hav nodes tm fl u st v).dist := by
  simp only [relaxOne]
  split
  · exact h
  · split
    · refine distNonneg_setVal h ?_ v
      exact numV_add_nonneg (lookupD_nonneg h u)
        (edgeCost_nonneg hav nodes tm fl u v hhav htm hfl)
    · exact h

theorem relaxFoldl_distNonneg (hav : Point → Point → ℚ) (nodes : List Node)
    (tm : List (String × ℚ)) (fl : List FloodZone) (u : String)
    (hhav : ∀ p q : Point, 0 ≤ hav p q)
    (htm : ∀ p ∈ tm, 0 ≤ p.2)
    (hfl : ∀ f ∈ fl, ∀ s, f.severity = some s → 0 ≤ s) :
    ∀ (l : List String) (st : DState), distNonneg st.dist →
      distNonneg (l.foldl (relaxOne hav nodes tm fl u) st).dist := by
  intro l
  induction l with
  | nil => intro st h; exact h
  | cons v l ih =>
    intro st h
    rw [List.foldl_cons]
    exact ih _ (relaxOne_dist_distNonneg hav nodes tm fl u hhav htm hfl st h v)

theorem dijkstraVisit_distNonneg (hav : Point → Point → ℚ) (nodes : List Node)
    (tm : List (String × ℚ)) (fl : List FloodZone)
    (adj : List (String × List String)) (u : String)
    (hhav : ∀ p q : Point, 0 ≤ hav p q)
    (htm : ∀ p ∈ tm, 0 ≤ p.2)
    (hfl : ∀ f ∈ fl, ∀ s, f.severity = some s → 0 ≤ s)
    (st : DState) (h : distNonneg st.dist) :
    distNonneg (dijkstraVisit hav nodes tm fl adj u st).dist := by
  unfold dijkstraVisit
  exact relaxFoldl_distNonneg hav nodes tm fl u hhav htm hfl _ _ h

theorem dijkstraLoop_distNonneg (hav : Point → Point → ℚ) (nodes : List Node)
    (tm : List (String × ℚ)) (fl : List FloodZone)
    (adj : List (String × List String)) (endId : String)
    (hhav : ∀ p q : Point, 0 ≤ hav p q)
    (htm : ∀ p ∈ tm, 0 ≤ p.2)
    (hfl : ∀ f ∈ fl, ∀ s, f.severity = some s → 0 ≤ s) :
    ∀ (fuel : Nat) (st st' : DState), distNonneg st.dist →
      dijkstraLoop hav nodes tm fl adj endId fuel st = some st' →
      distNonneg st'.dist := by
  intro fuel
  induction fuel with
  | zero =>
    intro st st' h hl
    exact absurd hl (by simp [dijkstraLoop])
  | succ fuel ih =>
    intro st st' h hl
    rw [dijkstraLoop] at hl
    split at hl
    next => cases hl; exact h
    next u heq =>
      split at hl
      next => cases hl; exact h
      next =>
        exact ih _ _ (dijkstraVisit_distNonneg hav nodes tm fl adj u hhav htm hfl st h) hl

theorem initDist_distNonneg (ns : List Node) (sId : String) :
    distNonneg (initDist ns sId) := by
  unfold initDist
  refine distNonneg_setVal ?_ (show (NumV.fin 0).nonneg from le_refl (0 : ℚ)) sId
  suffices haux : ∀ (l : List Node) (acc : List (String × NumV)),
      distNonneg acc →
      distNonneg (l.foldl (fun m n => setVal m n.id NumV.inf) acc) by
    exact haux ns [] (fun p hp => absurd hp (List.not_mem_nil p))
  intro l
  induction l with
  | nil => intro acc h; exact h
  | cons n l ih =>
    intro acc h
    rw [List.foldl_cons]
    exact ih _ (distNonneg_setVal h (show NumV.inf.nonneg from trivial) n.id)

/-! ## Snapping and reconstruction lemmas -/

theorem closestNode_foldl_mem (hav : Point → Point → ℚ) (p : Point) :
    ∀ (l : List Node) (acc : Option Node × NumV) (m : Node),
      (l.foldl (fun acc n =>
        if (NumV.fin (hav p ⟨n.lat, n.lng⟩)).lt acc.2
        then (some n, NumV.fin (hav p ⟨n.lat, n.lng⟩)) else acc) acc).1 =
          some m →
      acc.1 = some m ∨ m ∈ l := by
  intro l
  induction l with
  | nil => intro acc m h; exact Or.inl h
  | cons n l ih =>
    intro acc m h
    rw [List.foldl_cons] at h
    rcases ih _ m h with h1 | h1
    · by_cases hlt : (NumV.fin (hav p ⟨n.lat, n.lng⟩)).lt acc.2 = true
      · rw [if_pos hlt] at h1
        right
        have hnm : n = m := Option.some_inj.mp h1
        rw [← hnm]
        exact List.mem_cons_self n l
      · rw [if_neg hlt] at h1
        exact Or.inl h1
    · exact Or.inr (List.mem_cons_of_mem n h1)

theorem closestNode_mem {hav : Point → Point → ℚ} {ns : List Node} {p : Point}
    {n : Node} (h : closestNode hav ns p = some n) : n ∈ ns := by
  unfold closestNode at h
  rcases closestNode_foldl_mem hav p ns (none, .inf) n h with h1 | h1
  · exact absurd h1 (by simp)
  · exact h1

theorem walkPrev_length (nodes : List Node)
    (prev : List (String × Option String)) :
    ∀ (fuel : Nat) (cur : Option String) (acc out : List Node),
      walkPrev nodes prev fuel cur acc = some out →
      acc.length ≤ out.length := by
  intro fuel
  induction fuel with
  | zero =>
    intro cur acc out h
    exact absurd h (by simp [walkPrev])
  | succ fuel ih =>
    intro cur acc out h
    cases cur with
    | none =>
      rw [walkPrev] at h
      cases h
      exact le_refl _
    | some c =>
      rw [walkPrev] at h
      split at h
      · cases h
        exact le_refl _
      · split at h
        next => exact absurd h (by simp)
        next n hn =>
          have := ih _ _ _ h
          simp only [List.length_cons] at this
          omega

/-! ## Key-set lemmas for the search state -/

theorem find?_keys_isSome {α : Type} (m : List (String × α)) (k : String) :
    (m.find? (fun p => p.1 = k)).isSome = true ↔ k ∈ m.map Prod.fst := by
  rw [List.find?_isSome, List.mem_map]
  constructor
  · rintro ⟨x, hx, hpx⟩
    exact ⟨x, hx, by simpa using hpx⟩
  · rintro ⟨x, hx, hpx⟩
    exact ⟨x, hx, by simpa using hpx⟩

theorem keys_mono_setVal {α : Type} {m : List (String × α)} {x k : String}
    {v : α} (h : x ∈ m.map Prod.fst) : x ∈ (setVal m k v).map Prod.fst := by
  rw [setVal_keys]
  split
  · exact h
  · exact List.mem_append_left _ h

theorem mem_keys_setVal_self {α : Type} (m : List (String × α)) (k : String)
    (v : α) : k ∈ (setVal m k v).map Prod.fst := by
  rw [setVal_keys]
  split
  next h => exact (find?_keys_isSome m k).mp h
  next h => exact List.mem_append_right _ (List.mem_singleton.mpr rfl)

theorem length_keys_setVal {α : Type} (m : List (String × α)) (k : String)
    (v : α) :
    ((setVal m k v).map Prod.fst).length ≤ (m.map Prod.fst).length + 1 := by
  rw [setVal_keys]
  split
  · omega
  · simp

theorem lookupNode_some {nodes : List Node} {v : String} {nv : Node}
    (h : lookupNode nodes v = some nv) : nv ∈ nodes ∧ nv.id = v :=
  ⟨List.mem_of_find?_eq_some h, by simpa using List.find?_some h⟩

theorem edgeCost_ne_inf_lookup {hav : Point → Point → ℚ} {nodes : List Node}
    {tm : List (String × ℚ)} {fl : List FloodZone} {a b : String}
    (h : edgeCost hav nodes tm fl a b ≠ .inf) :
    ∃ nb, lookupNode nodes b = some nb := by
  unfold edgeCost at h
  cases h1 : lookupNode nodes a with
  | none =>
    rw [h1] at h
    exact absurd rfl h
  | some na =>
    cases h2 : lookupNode nodes b with
    | none =>
      rw [h1, h2] at h
      exact absurd rfl h
    | some nb => exact ⟨nb, rfl⟩

theorem numV_add_ne_inf {x y : NumV} (h : x.add y ≠ .inf) : y ≠ .inf := by
  intro hy
  rw [hy] at h
  cases x <;> exact h rfl

theorem relaxOne_keys (hav : Point → Point → ℚ) (nodes : List Node)
    (tm : List (String × ℚ)) (fl : List FloodZone) (u : String)
    (st : DState) (v : String)
    (hkeys : ∀ n ∈ nodes, n.id ∈ st.dist.map Prod.fst) :
    (relaxOne hav nodes tm fl u st v).dist.map Prod.fst =
      st.dist.map Prod.fst ∧
    (relaxOne hav nodes tm fl u st v).visited = st.visited := by
  simp only [relaxOne]
  split
  · exact ⟨rfl, rfl⟩
  · split
    next halt =>
      refine ⟨?_, rfl⟩
      by_cases hv : (st.dist.find? (fun p => p.1 = v)).isSome = true
      · rw [setVal_keys, if_pos hv]
      · exfalso
        have hnone : st.dist.find? (fun p => p.1 = v) = none :=
          Option.not_isSome_iff_eq_none.mp (by simpa using hv)
        have hlook : lookupD st.dist v = NumV.inf := by
          unfold lookupD
          rw [hnone]
          rfl
        rw [hlook] at halt
        have halt' : (lookupD st.dist u).add (edgeCost hav nodes tm fl u v) ≠
            NumV.inf := by
          intro hcon
          rw [hcon] at halt
          simp [NumV.lt] at halt
        have hec := numV_add_ne_inf halt'
        obtain ⟨nb, hnb⟩ := edgeCost_ne_inf_lookup hec
        obtain ⟨hmem, hid⟩ := lookupNode_some hnb
        have : v ∈ st.dist.map Prod.fst := hid ▸ hkeys nb hmem
        exact hv ((find?_keys_isSome st.dist v).mpr this)
    · exact ⟨rfl, rfl⟩

theorem relaxFoldl_keys (hav : Point → Point → ℚ) (nodes : List Node)
    (tm : List (String × ℚ)) (fl : List FloodZone) (u : String) :
    ∀ (l : List String) (st : DState),
      (∀ n ∈ nodes, n.id ∈ st.dist.map Prod.fst) →
      (l.foldl (relaxOne hav nodes tm fl u) st).dist.map Prod.fst =
        st.dist.map Prod.fst ∧
      (l.foldl (relaxOne hav nodes tm fl u) st).visited = st.visited := by
  intro l
  induction l with
  | nil => intro st _; exact ⟨rfl, rfl⟩
  | cons v l ih =>
    intro st hkeys
    rw [List.foldl_cons]
    have h1 := relaxOne_keys hav nodes tm fl u st v hkeys
    have h2 := ih (relaxOne hav nodes tm fl u st v) (by rw [h1.1]; exact hkeys)
    exact ⟨h2.1.trans h1.1, h2.2.trans h1.2⟩

theorem dijkstraVisit_keys (hav : Point → Point → ℚ) (nodes : List Node)
    (tm : List (String × ℚ)) (fl : List FloodZone)
    (adj : List (String × List String)) (u : String) (st : DState)
    (hkeys : ∀ n ∈ nodes, n.id ∈ st.dist.map Prod.fst) :
    (dijkstraVisit hav nodes tm fl adj u st).dist.map Prod.fst =
      st.dist.map Prod.fst ∧
    (dijkstraVisit hav nodes tm fl adj u st).visited = u :: st.visited := by
  unfold dijkstraVisit
  exact relaxFoldl_keys hav nodes tm fl u _ _ hkeys

/-! ## extractMin and termination -/

theorem extractMin_foldl_spec (dist : List (String × NumV))
    (visited : List String) :
    ∀ (l : List (String × NumV)) (best : Option String),
      (∀ b, best = some b → b ∉ visited ∧ b ∈ dist.map Prod.fst) →
      (∀ p ∈ l, p ∈ dist) →
      ∀ u, l.foldl (fun best p =>
        if p.1 ∈ visited then best
        else
          match best with
          | none => some p.1
          | some b => if (lookupD dist p.1).lt (lookupD dist b) then some p.1
            else best) best = some u →
      u ∉ visited ∧ u ∈ dist.map Prod.fst := by
  intro l
  induction l with
  | nil => intro best hbest _ u h; exact hbest u h
  | cons p l ih =>
    intro best hbest hmem u h
    rw [List.foldl_cons] at h
    refine ih _ ?_ (fun q hq => hmem q (List.mem_cons_of_mem p hq)) u h
    intro b hb
    split at hb
    · exact hbest b hb
    next hpvis =>
      cases best with
      | none =>
        dsimp only at hb
        have : p.1 = b := Option.some_inj.mp hb
        rw [← this]
        exact ⟨hpvis, List.mem_map_of_mem Prod.fst (hmem p (List.mem_cons_self p l))⟩
      | some b0 =>
        dsimp only at hb
        by_cases hlt : (lookupD dist p.1).lt (lookupD dist b0) = true
        · rw [if_pos hlt] at hb
          have : p.1 = b := Option.some_inj.mp hb
          rw [← this]
          exact ⟨hpvis, List.mem_map_of_mem Prod.fst (hmem p (List.mem_cons_self p l))⟩
        · rw [if_neg hlt] at hb
          exact hbest b hb

theorem extractMin_spec {dist : List (String × NumV)} {visited : List String}
    {u : String} (h : extractMin dist visited = some u) :
    u ∉ visited ∧ u ∈ dist.map Prod.fst := by
  unfold extractMin at h
  exact extractMin_foldl_spec dist visited dist none (by intro b hb; cases hb)
    (fun p hp => hp) u h

theorem length_filter_ne_lt {l : List String} {u : String} (hu : u ∈ l) :
    (l.filter (fun k => decide ¬(k = u))).length < l.length := by
  induction l with
  | nil => cases hu
  | cons a l ih =>
    rw [List.filter_cons]
    by_cases ha : a = u
    · have hcond : (decide ¬(a = u)) = false := by simp [ha]
      rw [hcond]
      simp only [Bool.false_eq_true, if_false, List.length_cons]
      have := List.length_filter_le (fun k => decide ¬(k = u)) l
      omega
    · have hcond : (decide ¬(a = u)) = true := by simp [ha]
      rw [hcond]
      simp only [if_true, List.length_cons]
      have hmem : u ∈ l := by
        rcases List.mem_cons.mp hu with h | h
        · exact absurd h.symm ha
        · exact h
      have := ih hmem
      omega

theorem filter_visited_cons (l : List String) (u : String)
    (visited : List String) :
    l.filter (fun k => decide (k ∉ u :: visited)) =
      (l.filter (fun k => decide (k ∉ visited))).filter
        (fun k => decide ¬(k = u)) := by
  rw [List.filter_filter]
  refine List.filter_congr (fun k _ => ?_)
  by_cases h1 : k = u <;> by_cases h2 : k ∈ visited <;> simp [h1, h2]

theorem dijkstraLoop_terminates (hav : Point → Point → ℚ) (nodes : List Node)
    (tm : List (String × ℚ)) (fl : List FloodZone)
    (adj : List (String × List String)) (endId : String) :
    ∀ (fuel : Nat) (st : DState),
      ((st.dist.map Prod.fst).filter
        (fun k => decide (k ∉ st.visited))).length < fuel →
      (∀ n ∈ nodes, n.id ∈ st.dist.map Prod.fst) →
      ∃ st', dijkstraLoop hav nodes tm fl adj endId fuel st = some st' ∧
        (extractMin st'.dist st'.visited = none ∨
          extractMin st'.dist st'.visited = some endId) := by
  intro fuel
  induction fuel with
  | zero => intro st hc _; omega
  | succ fuel ih =>
    intro st hcount hkeys
    cases hem : extractMin st.dist st.visited with
    | none =>
      refine ⟨st, ?_, Or.inl hem⟩
      rw [dijkstraLoop]
      simp only [hem]
    | some u =>
      by_cases hu : u = endId
      · subst hu
        refine ⟨st, ?_, Or.inr hem⟩
        rw [dijkstraLoop]
        simp [hem]
      · obtain ⟨huvis, hukeys⟩ := extractMin_spec hem
        have hvk := dijkstraVisit_keys hav nodes tm fl adj u st hkeys
        have hkeys2 : ∀ n ∈ nodes,
            n.id ∈ (dijkstraVisit hav nodes tm fl adj u st).dist.map Prod.fst := by
          rw [hvk.1]
          exact hkeys
        have hcount2 :
            (((dijkstraVisit hav nodes tm fl adj u st).dist.map Prod.fst).filter
              (fun k => decide
                (k ∉ (dijkstraVisit hav nodes tm fl adj u st).visited))).length <
              fuel := by
          rw [hvk.1, hvk.2, filter_visited_cons]
          have humem : u ∈ (st.dist.map Prod.fst).filter
              (fun k => decide (k ∉ st.visited)) :=
            List.mem_filter.mpr ⟨hukeys, by simpa using huvis⟩
          have hlt := length_filter_ne_lt humem
          omega
        obtain ⟨st', hst', hexit⟩ := ih _ hcount2 hkeys2
        refine ⟨st', ?_, hexit⟩
        rw [dijkstraLoop]
        simp only [hem, if_neg hu]
        exact hst'

theorem initDist_foldl_keys_mem :
    ∀ (l : List Node) (acc : List (String × NumV)) (n : Node), n ∈ l →
      n.id ∈ (l.foldl (fun m n => setVal m n.id NumV.inf) acc).map Prod.fst := by
  intro l
  induction l with
  | nil => intro acc n hn; cases hn
  | cons m l ih =>
    intro acc n hn
    rw [List.foldl_cons]
    rcases List.mem_cons.mp hn with h | h
    · subst h
      suffices haux : ∀ (l' : List Node) (acc' : List (String × NumV)),
          n.id ∈ acc'.map Prod.fst →
          n.id ∈ (l'.foldl (fun m n => setVal m n.id NumV.inf) acc').map
            Prod.fst by
        exact haux l _ (mem_keys_setVal_self acc n.id NumV.inf)
      intro l'
      induction l' with
      | nil => intro acc' h; exact h
      | cons m' l' ih' =>
        intro acc' h
        rw [List.foldl_cons]
        exact ih' _ (keys_mono_setVal h)
    · exact ih _ n h

theorem initDist_foldl_keys_length :
    ∀ (l : List Node) (acc : List (String × NumV)),
      ((l.foldl (fun m n => setVal m n.id NumV.inf) acc).map Prod.fst).length ≤
        (acc.map Prod.fst).length + l.length := by
  intro l
  induction l with
  | nil => intro acc; simp
  | cons m l ih =>
    intro acc
    rw [List.foldl_cons]
    have h1 := ih (setVal acc m.id NumV.inf)
    have h2 := length_keys_setVal acc m.id NumV.inf
    simp only [List.length_cons]
    omega

theorem initDist_keys_mem (ns : List Node) (sId : String) (n : Node)
    (hn : n ∈ ns) : n.id ∈ (initDist ns sId).map Prod.fst := by
  unfold initDist
  exact keys_mono_setVal (initDist_foldl_keys_mem ns [] n hn)

theorem initDist_keys_length (ns : List Node) {sId : String}
    (hsid : sId ∈ ns.map Node.id) :
    ((initDist ns sId).map Prod.fst).length ≤ ns.length := by
  unfold initDist
  have hmem : sId ∈ (ns.foldl (fun m n => setVal m n.id NumV.inf) []).map
      Prod.fst := by
    rcases List.mem_map.mp hsid with ⟨n, hn, hid⟩
    exact hid ▸ initDist_foldl_keys_mem ns [] n hn
  rw [setVal_keys, if_pos ((find?_keys_isSome _ sId).mpr hmem)]
  have := initDist_foldl_keys_length ns []
  simpa using this

/-! ## Congruence lemmas: node lists that agree on ids and coordinates -/

theorem nodeCore_parts {n1 n2 : Node} (h : nodeCore n1 = nodeCore n2) :
    n1.id = n2.id ∧ n1.lat = n2.lat ∧ n1.lng = n2.lng := by
  unfold nodeCore at h
  simpa using h

theorem lookupNode_core {ns1 ns2 : List Node}
    (h : ns1.map nodeCore = ns2.map nodeCore) (k : String) :
    Option.map nodeCore (lookupNode ns1 k) =
      Option.map nodeCore (lookupNode ns2 k) := by
  induction ns1 generalizing ns2 with
  | nil =>
    cases ns2 with
    | nil => rfl
    | cons m ms => simp at h
  | cons n ns ih =>
    cases ns2 with
    | nil => simp at h
    | cons m ms =>
      rw [List.map_cons, List.map_cons] at h
      have hhead : nodeCore n = nodeCore m := (List.cons.injEq _ _ _ _ ▸ h).1
      have htail : ns.map nodeCore = ms.map nodeCore :=
        (List.cons.injEq _ _ _ _ ▸ h).2
      obtain ⟨hid, _, _⟩ := nodeCore_parts hhead
      unfold lookupNode
      by_cases hk : n.id = k
      · rw [List.find?_cons_of_pos _ (by simpa using hk),
          List.find?_cons_of_pos _ (by simpa using hid ▸ hk)]
        simpa using hhead
      · rw [List.find?_cons_of_neg _ (by simpa using hk),
          List.find?_cons_of_neg _ (by simpa using hid ▸ hk)]
        exact ih htail

theorem edgeCost_core {ns1 ns2 : List Node}
    (h : ns1.map nodeCore = ns2.map nodeCore) (hav : Point → Point → ℚ)
    (tm : List (String × ℚ)) (fl : List FloodZone) (x y : String) :
    edgeCost hav ns1 tm fl x y = edgeCost hav ns2 tm fl x y := by
  have hx := lookupNode_core h x
  have hy := lookupNode_core h y
  unfold edgeCost
  cases h1 : lookupNode ns1 x with
  | none =>
    rw [h1] at hx
    have h1' : lookupNode ns2 x = none := by
      cases h2 : lookupNode ns2 x with
      | none => rfl
      | some m => rw [h2] at hx; simp at hx
    rw [h1']
  | some a1 =>
    rw [h1] at hx
    cases h2 : lookupNode ns2 x with
    | none => rw [h2] at hx; simp at hx
    | some a2 =>
      rw [h2] at hx
      have ha : nodeCore a1 = nodeCore a2 := by simpa using hx
      obtain ⟨_, halat, halng⟩ := nodeCore_parts ha
      cases h3 : lookupNode ns1 y with
      | none =>
        rw [h3] at hy
        have h3' : lookupNode ns2 y = none := by
          cases h4 : lookupNode ns2 y with
          | none => rfl
          | some m => rw [h4] at hy; simp at hy
        rw [h3']
      | some b1 =>
        rw [h3] at hy
        cases h4 : lookupNode ns2 y with
        | none => rw [h4] at hy; simp at hy
        | some b2 =>
          rw [h4] at hy
          have hbcore : nodeCore b1 = nodeCore b2 := by simpa using hy
          obtain ⟨_, hblat, hblng⟩ := nodeCore_parts hbcore
          dsimp only
          rw [halat, halng, hblat, hblng]

theorem relaxOne_congr {ns1 ns2 : List Node}
    (h : ns1.map nodeCore = ns2.map nodeCore) (hav : Point → Point → ℚ)
    (tm : List (String × ℚ)) (fl : List FloodZone) (u : String) (st : DState)
    (v : String) :
    relaxOne hav ns1 tm fl u st v = relaxOne hav ns2 tm fl u st v := by
  simp only [relaxOne, edgeCost_core h hav tm fl u v]

theorem relaxOne_badId (hav : Point → Point → ℚ) (ns : List Node)
    (tm : List (String × ℚ)) (fl : List FloodZone) (badId : String)
    (hbad : lookupNode ns badId = none) (u : String) (st : DState) :
    relaxOne hav ns tm fl u st badId = st := by
  have hec : edgeCost hav ns tm fl u badId = NumV.inf := by
    unfold edgeCost
    rw [hbad]
    cases lookupNode ns u <;> rfl
  have hadd : ((lookupD st.dist u).add (edgeCost hav ns tm fl u badId)) =
      NumV.inf := by
    rw [hec]
    cases lookupD st.dist u <;> rfl
  simp only [relaxOne, hadd]
  split
  · rfl
  · rw [if_neg (by simp [NumV.lt])]

theorem closestNode_foldl_core (hav : Point → Point → ℚ) (p : Point) :
    ∀ (l1 l2 : List Node) (acc1 acc2 : Option Node × NumV),
      l1.map nodeCore = l2.map nodeCore →
      Option.map nodeCore acc1.1 = Option.map nodeCore acc2.1 →
      acc1.2 = acc2.2 →
      Option.map nodeCore
          (l1.foldl (fun acc n =>
            if (NumV.fin (hav p ⟨n.lat, n.lng⟩)).lt acc.2
            then (some n, NumV.fin (hav p ⟨n.lat, n.lng⟩)) else acc) acc1).1 =
        Option.map nodeCore
          (l2.foldl (fun acc n =>
            if (NumV.fin (hav p ⟨n.lat, n.lng⟩)).lt acc.2
            then (some n, NumV.fin (hav p ⟨n.lat, n.lng⟩)) else acc) acc2).1 ∧
      (l1.foldl (fun acc n =>
        if (NumV.fin (hav p ⟨n.lat, n.lng⟩)).lt acc.2
        then (some n, NumV.fin (hav p ⟨n.lat, n.lng⟩)) else acc) acc1).2 =
      (l2.foldl (fun acc n =>
        if (NumV.fin (hav p ⟨n.lat, n.lng⟩)).lt acc.2
        then (some n, NumV.fin (hav p ⟨n.lat, n.lng⟩)) else acc) acc2).2 := by
  intro l1
  induction l1 with
  | nil =>
    intro l2 acc1 acc2 h h1 h2
    cases l2 with
    | nil => exact ⟨h1, h2⟩
    | cons m ms => simp at h
  | cons n ns ih =>
    intro l2 acc1 acc2 h h1 h2
    cases l2 with
    | nil => simp at h
    | cons m ms =>
      rw [List.map_cons, List.map_cons] at h
      have hhead : nodeCore n = nodeCore m := (List.cons.injEq _ _ _ _ ▸ h).1
      have htail : ns.map nodeCore = ms.map nodeCore :=
        (List.cons.injEq _ _ _ _ ▸ h).2
      obtain ⟨_, hlat, hlng⟩ := nodeCore_parts hhead
      rw [List.foldl_cons, List.foldl_cons]
      refine ih ms _ _ htail ?_ ?_
      · dsimp only
        rw [hlat, hlng, h2]
        split
        · simpa using hhead
        · exact h1
      · dsimp only
        rw [hlat, hlng, h2]
        split
        · rfl
        · exact h2

theorem closestNode_core {ns1 ns2 : List Node}
    (h : ns1.map nodeCore = ns2.map nodeCore) (hav : Point → Point → ℚ)
    (p : Point) :
    Option.map nodeCore (closestNode hav ns1 p) =
      Option.map nodeCore (closestNode hav ns2 p) := by
  unfold closestNode
  exact (closestNode_foldl_core hav p ns1 ns2 (none, .inf) (none, .inf) h rfl
    rfl).1

theorem foldl_setVal_const_congr {α : Type} (c : α) :
    ∀ (l1 l2 : List Node) (acc : List (String × α)),
      l1.map Node.id = l2.map Node.id →
      l1.foldl (fun m n => setVal m n.id c) acc =
        l2.foldl (fun m n => setVal m n.id c) acc := by
  intro l1
  induction l1 with
  | nil =>
    intro l2 acc h
    cases l2 with
    | nil => rfl
    | cons m ms => simp at h
  | cons n ns ih =>
    intro l2 acc h
    cases l2 with
    | nil => simp at h
    | cons m ms =>
      rw [List.map_cons, List.map_cons] at h
      have hhead : n.id = m.id := (List.cons.injEq _ _ _ _ ▸ h).1
      have htail : ns.map Node.id = ms.map Node.id :=
        (List.cons.injEq _ _ _ _ ▸ h).2
      rw [List.foldl_cons, List.foldl_cons, hhead]
      exact ih ms _ htail

theorem coreEq_ids {ns1 ns2 : List Node}
    (h : ns1.map nodeCore = ns2.map nodeCore) :
    ns1.map Node.id = ns2.map Node.id := by
  have := congrArg (List.map Prod.fst) h
  rwa [List.map_map, List.map_map] at this

theorem initDist_congr {ns1 ns2 : List Node}
    (h : ns1.map nodeCore = ns2.map nodeCore) (sId : String) :
    initDist ns1 sId = initDist ns2 sId := by
  unfold initDist
  rw [foldl_setVal_const_congr NumV.inf ns1 ns2 [] (coreEq_ids h)]

theorem initPrev_congr {ns1 ns2 : List Node}
    (h : ns1.map nodeCore = ns2.map nodeCore) :
    initPrev ns1 = initPrev ns2 := by
  unfold initPrev
  rw [foldl_setVal_const_congr (none : Option String) ns1 ns2 [] (coreEq_ids h)]

theorem dijkstraVisit_congr {ns1 ns2 : List Node} {L1 L2 : List String}
    {adj1 adj2 : List (String × List String)} {badId : String}
    (hcore : ns1.map nodeCore = ns2.map nodeCore)
    (hadj : ∀ w, getVal adj1 w = getVal adj2 w ∨
      (getVal adj1 w = some L1 ∧ getVal adj2 w = some L2))
    (hbad : lookupNode ns2 badId = none)
    (hL : ∃ l1 l2, L1 = l1 ++ badId :: l2 ∧ L2 = l1 ++ l2)
    (hav : Point → Point → ℚ) (tm : List (String × ℚ)) (fl : List FloodZone)
    (u : String) (st : DState) :
    dijkstraVisit hav ns1 tm fl adj1 u st =
      dijkstraVisit hav ns2 tm fl adj2 u st := by
  unfold dijkstraVisit
  have hfun : relaxOne hav ns1 tm fl u = relaxOne hav ns2 tm fl u :=
    funext fun st => funext fun v => relaxOne_congr hcore hav tm fl u st v
  rw [hfun]
  rcases hadj u with h | ⟨h1, h2⟩
  · rw [h]
  · rw [h1, h2]
    obtain ⟨l1, l2, hL1, hL2⟩ := hL
    rw [hL1, hL2]
    simp only [Option.getD_some]
    rw [List.foldl_append, List.foldl_append, List.foldl_cons,
      relaxOne_badId hav ns2 tm fl badId hbad]

theorem dijkstraLoop_congr {ns1 ns2 : List Node} {L1 L2 : List String}
    {adj1 adj2 : List (String × List String)} {badId : String}
    (hcore : ns1.map nodeCore = ns2.map nodeCore)
    (hadj : ∀ w, getVal adj1 w = getVal adj2 w ∨
      (getVal adj1 w = some L1 ∧ getVal adj2 w = some L2))
    (hbad : lookupNode ns2 badId = none)
    (hL : ∃ l1 l2, L1 = l1 ++ badId :: l2 ∧ L2 = l1 ++ l2)
    (hav : Point → Point → ℚ) (tm : List (String × ℚ)) (fl : List FloodZone)
    (endId : String) :
    ∀ (fuel : Nat) (st : DState),
      dijkstraLoop hav ns1 tm fl adj1 endId fuel st =
        dijkstraLoop hav ns2 tm fl adj2 endId fuel st := by
  intro fuel
  induction fuel with
  | zero => intro st; rfl
  | succ fuel ih =>
    intro st
    rw [dijkstraLoop, dijkstraLoop]
    cases hem : extractMin st.dist st.visited with
    | none => simp only [hem]
    | some u =>
      simp only [hem]
      by_cases hu : u = endId
      · rw [if_pos hu, if_pos hu]
      · rw [if_neg hu, if_neg hu,
          dijkstraVisit_congr hcore hadj hbad hL hav tm fl u st, ih]

theorem walkPrev_core {ns1 ns2 : List Node}
    (h : ns1.map nodeCore = ns2.map nodeCore)
    (prev : List (String × Option String)) :
    ∀ (fuel : Nat) (cur : Option String) (acc1 acc2 : List Node),
      acc1.map nodeCore = acc2.map nodeCore →
      Option.map (List.map nodeCore) (walkPrev ns1 prev fuel cur acc1) =
        Option.map (List.map nodeCore) (walkPrev ns2 prev fuel cur acc2) := by
  intro fuel
  induction fuel with
  | zero => intro cur acc1 acc2 _; rfl
  | succ fuel ih =>
    intro cur acc1 acc2 hacc
    cases cur with
    | none =>
      rw [walkPrev, walkPrev]
      simpa using hacc
    | some c =>
      rw [walkPrev, walkPrev]
      by_cases hc : c = ""
      · rw [if_pos hc, if_pos hc]
        simpa using hacc
      · rw [if_neg hc, if_neg hc]
        have hl := lookupNode_core h c
        cases h1 : lookupNode ns1 c with
        | none =>
          rw [h1] at hl
          have h2 : lookupNode ns2 c = none := by
            cases h2' : lookupNode ns2 c with
            | none => rfl
            | some m => rw [h2'] at hl; simp at hl
          rw [h2]
        | some n1 =>
          rw [h1] at hl
          cases h2 : lookupNode ns2 c with
          | none => rw [h2] at hl; simp at hl
          | some n2 =>
            rw [h2] at hl
            have hcores : nodeCore n1 = nodeCore n2 := by simpa using hl
            exact ih _ _ _ (by rw [List.map_cons, List.map_cons, hcores, hacc])

theorem map_pathPoint_congr : ∀ {l1 l2 : List Node},
    l1.map nodeCore = l2.map nodeCore →
    l1.map (fun n => (⟨n.lat, n.lng, n.id⟩ : PathPoint)) =
      l2.map (fun n => (⟨n.lat, n.lng, n.id⟩ : PathPoint)) := by
  intro l1
  induction l1 with
  | nil =>
    intro l2 h
    cases l2 with
    | nil => rfl
    | cons m ms => simp at h
  | cons n ns ih =>
    intro l2 h
    cases l2 with
    | nil => simp at h
    | cons m ms =>
      rw [List.map_cons, List.map_cons] at h
      have hhead : nodeCore n = nodeCore m := (List.cons.injEq _ _ _ _ ▸ h).1
      have htail : ns.map nodeCore = ms.map nodeCore :=
        (List.cons.injEq _ _ _ _ ▸ h).2
      obtain ⟨hid, hlat, hlng⟩ := nodeCore_parts hhead
      rw [List.map_cons, List.map_cons, hid, hlat, hlng, ih htail]

theorem adjRel_setVal {L1 L2 : List String} {m1 m2 : List (String × List String)}
    (hkeys : m1.map Prod.fst = m2.map Prod.fst)
    (hvals : ∀ w, getVal m1 w = getVal m2 w ∨
      (getVal m1 w = some L1 ∧ getVal m2 w = some L2))
    (k : String) (v : List String) :
    (setVal m1 k v).map Prod.fst = (setVal m2 k v).map Prod.fst ∧
    ∀ w, getVal (setVal m1 k v) w = getVal (setVal m2 k v) w ∨
      (getVal (setVal m1 k v) w = some L1 ∧
        getVal (setVal m2 k v) w = some L2) := by
  have hsome : (m1.find? (fun p => p.1 = k)).isSome =
      (m2.find? (fun p => p.1 = k)).isSome := by
    rw [Bool.eq_iff_iff, find?_keys_isSome m1 k, find?_keys_isSome m2 k, hkeys]
  constructor
  · rw [setVal_keys, setVal_keys, hsome, hkeys]
  · intro w
    by_cases hw : w = k
    · subst hw
      left
      rw [getVal_setVal_self, getVal_setVal_self]
    · rw [getVal_setVal_ne _ _ _ _ hw, getVal_setVal_ne _ _ _ _ hw]
      exact hvals w

theorem adjRel_foldl {L1 L2 : List String} :
    ∀ (l : List Node) (m1 m2 : List (String × List String)),
      m1.map Prod.fst = m2.map Prod.fst →
      (∀ w, getVal m1 w = getVal m2 w ∨
        (getVal m1 w = some L1 ∧ getVal m2 w = some L2)) →
      (l.foldl (fun m n => setVal m n.id (n.neighbors.map NeighborRef.toId))
          m1).map Prod.fst =
        (l.foldl (fun m n => setVal m n.id (n.neighbors.map NeighborRef.toId))
          m2).map Prod.fst ∧
      ∀ w, getVal (l.foldl (fun m n =>
          setVal m n.id (n.neighbors.map NeighborRef.toId)) m1) w =
          getVal (l.foldl (fun m n =>
            setVal m n.id (n.neighbors.map NeighborRef.toId)) m2) w ∨
        (getVal (l.foldl (fun m n =>
          setVal m n.id (n.neighbors.map NeighborRef.toId)) m1) w = some L1 ∧
          getVal (l.foldl (fun m n =>
            setVal m n.id (n.neighbors.map NeighborRef.toId)) m2) w = some L2) := by
  intro l
  induction l with
  | nil => intro m1 m2 hkeys hvals; exact ⟨hkeys, hvals⟩
  | cons n l ih =>
    intro m1 m2 hkeys hvals
    rw [List.foldl_cons, List.foldl_cons]
    have hstep := adjRel_setVal hkeys hvals n.id (n.neighbors.map NeighborRef.toId)
    exact ih _ _ hstep.1 hstep.2

theorem buildAdj_rel (pre post : List Node) (n : Node)
    (nl1 nl2 : List NeighborRef) (ref : NeighborRef)
    (hn : n.neighbors = nl1 ++ ref :: nl2) :
    (buildAdj (pre ++ n :: post)).map Prod.fst =
      (buildAdj (pre ++ ⟨n.id, n.lat, n.lng, nl1 ++ nl2⟩ :: post)).map
        Prod.fst ∧
    ∀ w, getVal (buildAdj (pre ++ n :: post)) w =
        getVal (buildAdj (pre ++ ⟨n.id, n.lat, n.lng, nl1 ++ nl2⟩ :: post)) w ∨
      (getVal (buildAdj (pre ++ n :: post)) w =
          some ((nl1.map NeighborRef.toId) ++
            ref.toId :: (nl2.map NeighborRef.toId)) ∧
        getVal (buildAdj (pre ++ ⟨n.id, n.lat, n.lng, nl1 ++ nl2⟩ :: post)) w =
          some ((nl1.map NeighborRef.toId) ++ (nl2.map NeighborRef.toId))) := by
  unfold buildAdj
  rw [List.foldl_append, List.foldl_append, List.foldl_cons, List.foldl_cons]
  apply adjRel_foldl post
  · rw [setVal_keys, setVal_keys]
  · intro w
    by_cases hw : w = n.id
    · subst hw
      right
      rw [getVal_setVal_self, getVal_setVal_self]
      constructor
      · rw [hn]
        simp [List.map_append]
      · simp [List.map_append]
    · left
      rw [getVal_setVal_ne _ _ _ _ hw, getVal_setVal_ne _ _ _ _ hw]

theorem computeSafeRoute_congr {ns1 ns2 : List Node} {L1 L2 : List String}
    {badId : String}
    (hcore : ns1.map nodeCore = ns2.map nodeCore)
    (hadj : ∀ w, getVal (buildAdj ns1) w = getVal (buildAdj ns2) w ∨
      (getVal (buildAdj ns1) w = some L1 ∧ getVal (buildAdj ns2) w = some L2))
    (hbad : lookupNode ns2 badId = none)
    (hL : ∃ l1 l2, L1 = l1 ++ badId :: l2 ∧ L2 = l1 ++ l2)
    (hav : Point → Point → ℚ) (tl : List TrafficRecord) (fl : List FloodZone)
    (src dst : Point) :
    computeSafeRoute hav ns1 tl fl src dst =
      computeSafeRoute hav ns2 tl fl src dst := by
  simp only [computeSafeRoute]
  have hlen : ns1.length = ns2.length := by
    have := congrArg List.length hcore
    simpa using this
  have hcsrc := closestNode_core hcore hav src
  have hcdst := closestNode_core hcore hav dst
  cases h1 : closestNode hav ns1 src with
  | none =>
    rw [h1] at hcsrc
    have h1' : closestNode hav ns2 src = none := by
      cases h2 : closestNode hav ns2 src with
      | none => rfl
      | some m => rw [h2] at hcsrc; simp at hcsrc
    rw [h1']
  | some s1 =>
    rw [h1] at hcsrc
    cases h2 : closestNode hav ns2 src with
    | none => rw [h2] at hcsrc; simp at hcsrc
    | some s2 =>
      rw [h2] at hcsrc
      have hscore : nodeCore s1 = nodeCore s2 := by simpa using hcsrc
      obtain ⟨hsid, _, _⟩ := nodeCore_parts hscore
      cases h3 : closestNode hav ns1 dst with
      | none =>
        rw [h3] at hcdst
        have h3' : closestNode hav ns2 dst = none := by
          cases h4 : closestNode hav ns2 dst with
          | none => rfl
          | some m => rw [h4] at hcdst; simp at hcdst
        rw [h3']
      | some e1 =>
        rw [h3] at hcdst
        cases h4 : closestNode hav ns2 dst with
        | none => rw [h4] at hcdst; simp at hcdst
        | some e2 =>
          rw [h4] at hcdst
          have hecore : nodeCore e1 = nodeCore e2 := by simpa using hcdst
          obtain ⟨heid, _, _⟩ := nodeCore_parts hecore
          dsimp only
          rw [heid, hsid, hlen, initDist_congr hcore, initPrev_congr hcore,
            dijkstraLoop_congr hcore hadj hbad hL hav (buildTrafficMap tl) fl
              e2.id (ns2.length + 1)
              ⟨initDist ns2 s2.id, initPrev ns2, []⟩]
          cases hloop : dijkstraLoop hav ns2 (buildTrafficMap tl) fl
              (buildAdj ns2) e2.id (ns2.length + 1)
              ⟨initDist ns2 s2.id, initPrev ns2, []⟩ with
          | none => rfl
          | some st =>
            dsimp only
            cases hlk : lookupD st.dist e2.id with
            | inf => rfl
            | fin d =>
              dsimp only
              have hwalk := walkPrev_core hcore st.prev (ns2.length + 1)
                (some e2.id) [] [] rfl
              cases hw1 : walkPrev ns1 st.prev (ns2.length + 1) (some e2.id) []
                with
              | none =>
                rw [hw1] at hwalk
                have hw2 : walkPrev ns2 st.prev (ns2.length + 1) (some e2.id)
                    [] = none := by
                  cases hw2' : walkPrev ns2 st.prev (ns2.length + 1)
                      (some e2.id) [] with
                  | none => rfl
                  | some q => rw [hw2'] at hwalk; simp at hwalk
                rw [hw2]
              | some p1 =>
                rw [hw1] at hwalk
                cases hw2 : walkPrev ns2 st.prev (ns2.length + 1) (some e2.id)
                    [] with
                | none => rw [hw2] at hwalk; simp at hwalk
                | some p2 =>
                  rw [hw2] at hwalk
                  have hpcore : p1.map nodeCore = p2.map nodeCore := by
                    simpa using hwalk
                  dsimp only
                  rw [map_pathPoint_congr hpcore]



/-! ## Claim theorems -/

/-- C6: if the node collection passed to `computeSafeRoute` is empty,
the result has an empty path and null start and end, for every traffic
list, flood list, and pair of query points. -/
theorem C6_empty_graph (hav : Point → Point → ℚ) (trafficList : List TrafficRecord)
    (floodsList : List FloodZone) (srcPoint dstPoint : Point) :
    computeSafeRoute hav [] trafficList floodsList srcPoint dstPoint =
      some ⟨none, none, none, []⟩ := rfl

/-- C3 counterexample: a record with a negative congestion score is
stored unchanged by the traffic-map construction (the code's `??` only
replaces nullish values), so the built map holds `-1`, not `0`, and its
values do not all lie in `[0, 1]`. -/
theorem C3_counterexample :
    getVal (buildTrafficMap [⟨"A_B", some (-1), none⟩]) "A_B" = some (-1) ∧
    ¬ (0 : ℚ) ≤ -1 := by with_unfolding_all decide

/-- C4 counterexample: a flood zone with severity `-1` containing the
edge midpoint multiplies the base cost 2 by `1 + 5 * (-1) = -4` (the
code's `severity || 1` only replaces falsy values, and `-1` is truthy),
giving cost `-8` instead of the claimed `2 * (1 + 5 * 1) = 12`. -/
theorem C4_counterexample :
    edgeCost havLin [⟨"A", 0, 0, [.strId "B"]⟩, ⟨"B", 2, 0, [.strId "A"]⟩] []
        [⟨[⟨0, -1⟩, ⟨0, 1⟩, ⟨2, 1⟩, ⟨2, -1⟩], some (-1)⟩] "A" "B" = .fin (-8) ∧
    (-8 : ℚ) ≠ 2 * (1 + 5 * 1) := by with_unfolding_all decide

/-- C2 counterexample: with everything else fixed (base distance 2, no
traffic, one flood zone containing the edge midpoint), raising the
zone's severity from `0` to `1/10` lowers the edge cost from `12` to
`3`, because severity `0` is falsy and defaults to `1`: the cost is not
monotone non-decreasing in the severity value. -/
theorem C2_counterexample :
    edgeCost havLin [⟨"A", 0, 0, [.strId "B"]⟩, ⟨"B", 2, 0, [.strId "A"]⟩] []
        [⟨[⟨0, -1⟩, ⟨0, 1⟩, ⟨2, 1⟩, ⟨2, -1⟩], some 0⟩] "A" "B" = .fin 12 ∧
    edgeCost havLin [⟨"A", 0, 0, [.strId "B"]⟩, ⟨"B", 2, 0, [.strId "A"]⟩] []
        [⟨[⟨0, -1⟩, ⟨0, 1⟩, ⟨2, 1⟩, ⟨2, -1⟩], some (1/10)⟩] "A" "B" = .fin 3 ∧
    ¬ (12 : ℚ) ≤ 3 := by with_unfolding_all decide

/-- C5 counterexample: a traffic record with congestion score `-10`
(stored unnormalized) makes the edge multiplier `1 + 2 * (-10) = -19`,
so the search assigns the negative tentative distance `-19` and the
returned `distance_m` is negative. -/
theorem C5_counterexample :
    computeSafeRoute havLin [⟨"A", 0, 0, [.strId "B"]⟩, ⟨"B", 1, 0, [.strId "A"]⟩]
        [⟨"A_B", some (-10), none⟩] [] ⟨0, 0⟩ ⟨1, 0⟩ =
      some ⟨some "A", some "B", some (-19), [⟨0, 0, "A"⟩, ⟨1, 0, "B"⟩]⟩ ∧
    (-19 : ℚ) < 0 := by with_unfolding_all decide

/-- C10 counterexample: a reachable destination node whose id is the
empty string makes `while (cur)` exit immediately (the empty string is
falsy), so the result carries `distance_m` together with an empty
path. -/
theorem C10_counterexample :
    computeSafeRoute havLin [⟨"", 0, 0, []⟩] [] [] ⟨0, 0⟩ ⟨0, 0⟩ =
      some ⟨some "", some "", some 0, []⟩ ∧
    (some (0 : ℚ)).isSome = true := by with_unfolding_all decide


set_option maxHeartbeats 2000000 in
/-- C1: on the 3-node line graph `A-B-C` (neighbors `A:[B]`, `B:[A,C]`,
`C:[B]`), with empty traffic and flood collections, a source snapping to
`A` and a destination snapping to `C` give the path `[A, B, C]` with
`distance_m = hav(A,B) + hav(B,C)`. -/
theorem C1_line_graph (hav : Point → Point → ℚ) (la ga lb gb lc gc : ℚ)
    (src dst : Point)
    (hsrc : closestNode hav
        [⟨"A", la, ga, [.strId "B"]⟩, ⟨"B", lb, gb, [.strId "A", .strId "C"]⟩,
          ⟨"C", lc, gc, [.strId "B"]⟩] src = some ⟨"A", la, ga, [.strId "B"]⟩)
    (hdst : closestNode hav
        [⟨"A", la, ga, [.strId "B"]⟩, ⟨"B", lb, gb, [.strId "A", .strId "C"]⟩,
          ⟨"C", lc, gc, [.strId "B"]⟩] dst = some ⟨"C", lc, gc, [.strId "B"]⟩) :
    computeSafeRoute hav
        [⟨"A", la, ga, [.strId "B"]⟩, ⟨"B", lb, gb, [.strId "A", .strId "C"]⟩,
          ⟨"C", lc, gc, [.strId "B"]⟩] [] [] src dst =
      some ⟨some "A", some "C",
        some (hav ⟨la, ga⟩ ⟨lb, gb⟩ + hav ⟨lb, gb⟩ ⟨lc, gc⟩),
        [⟨la, ga, "A"⟩, ⟨lb, gb, "B"⟩, ⟨lc, gc, "C"⟩]⟩ := by
  have key : computeSafeRoute hav
      [⟨"A", la, ga, [.strId "B"]⟩, ⟨"B", lb, gb, [.strId "A", .strId "C"]⟩,
        ⟨"C", lc, gc, [.strId "B"]⟩] [] [] src dst =
      some ⟨some "A", some "C",
        some ((0 + hav ⟨la, ga⟩ ⟨lb, gb⟩ * (1 + 2 * 0)) +
          hav ⟨lb, gb⟩ ⟨lc, gc⟩ * (1 + 2 * 0)),
        [⟨la, ga, "A"⟩, ⟨lb, gb, "B"⟩, ⟨lc, gc, "C"⟩]⟩ := by
    unfold computeSafeRoute
    rw [hsrc, hdst]
    rfl
  rw [key]
  norm_num


/-- Witness for C1 at a concrete instance: collinear coordinates and the
`havLin` distance function. -/
theorem C1_line_graph_witness :
    computeSafeRoute havLin
        [⟨"A", 0, 0, [.strId "B"]⟩, ⟨"B", 1, 0, [.strId "A", .strId "C"]⟩,
          ⟨"C", 2, 0, [.strId "B"]⟩] [] [] ⟨0, 0⟩ ⟨2, 0⟩ =
      some ⟨some "A", some "C", some (havLin ⟨0, 0⟩ ⟨1, 0⟩ + havLin ⟨1, 0⟩ ⟨2, 0⟩),
        [⟨0, 0, "A"⟩, ⟨1, 0, "B"⟩, ⟨2, 0, "C"⟩]⟩ :=
  C1_line_graph havLin 0 0 1 0 2 0 ⟨0, 0⟩ ⟨2, 0⟩ (by with_unfolding_all decide)
    (by with_unfolding_all decide)



/-- C3 amended: a record whose `congestionScore` and `score` are both
nullish stores `0`; otherwise the first present of `congestionScore`,
`score` is stored verbatim (no clamping).  Consequently, when every
present score lies in `[0, 1]`, every value of the built traffic map
lies in `[0, 1]`. -/
theorem C3_amended (ts : List TrafficRecord)
    (h : ∀ t ∈ ts, ∀ q : ℚ,
      t.congestionScore = some q ∨ t.score = some q → 0 ≤ q ∧ q ≤ 1) :
    (∀ p ∈ buildTrafficMap ts, 0 ≤ p.2 ∧ p.2 ≤ 1) ∧
    (∀ t : TrafficRecord, t.congestionScore = none → t.score = none →
      buildTrafficMap [t] =
        if t.edgeId = "" then [] else [(t.edgeId, 0)]) := by
  constructor
  · exact buildTrafficMap_forall (fun q => 0 ≤ q ∧ q ≤ 1) (by norm_num) ts h
  · intro t hc hs
    unfold buildTrafficMap
    rw [List.foldl_cons, List.foldl_nil]
    have hv : trafficValue t = 0 := by
      unfold trafficValue
      simp [hc, hs, Option.orElse]
    split
    · rfl
    · rw [hv]
      rfl

/-- Witness for C3 amended: one in-range record. -/
theorem C3_amended_witness :
    ("A_B", (1 : ℚ) / 2) ∈ buildTrafficMap [⟨"A_B", some (1 / 2), none⟩] ∧
    (0 ≤ (1 : ℚ) / 2 ∧ (1 : ℚ) / 2 ≤ 1) :=
  ⟨by with_unfolding_all decide,
    (C3_amended [⟨"A_B", some (1 / 2), none⟩]
        (by
          intro t ht q hq
          simp only [List.mem_singleton] at ht
          subst ht
          rcases hq with h | h
          · have hq2 : (1 : ℚ) / 2 = q := by simpa using h
            rw [← hq2]
            norm_num
          · simp at h)).1
      ("A_B", (1 : ℚ) / 2) (by with_unfolding_all decide)⟩

/-- C4 amended: the effective severity in one step of the flood loop is
`1` exactly when the stored severity is absent or zero (falsy); any
other stored severity `s` — positive or negative — yields the
multiplier `1 + 5 * s`. -/
theorem C4_amended (mid : Point) (base : ℚ) (f : FloodZone)
    (hin : pointInPolygon mid f.polygon = true) :
    (f.severity = none ∨ f.severity = some 0 →
      floodStep mid base f = base * (1 + 5 * 1)) ∧
    (∀ s : ℚ, f.severity = some s → s ≠ 0 →
      floodStep mid base f = base * (1 + 5 * s)) := by
  constructor
  · intro h
    unfold floodStep effSeverity
    rcases h with h | h <;> rw [h] <;> simp [hin]
  · intro s hs hs0
    unfold floodStep effSeverity
    rw [hs]
    simp [hin, hs0]

/-- Witness for C4 amended: a zone with absent severity covering the
midpoint gets the default multiplier `6`. -/
theorem C4_amended_witness :
    floodStep ⟨1, 0⟩ 2 ⟨[⟨0, -1⟩, ⟨0, 1⟩, ⟨2, 1⟩, ⟨2, -1⟩], none⟩ =
      2 * (1 + 5 * 1) :=
  (C4_amended ⟨1, 0⟩ 2 ⟨[⟨0, -1⟩, ⟨0, 1⟩, ⟨2, 1⟩, ⟨2, -1⟩], none⟩
    (by with_unfolding_all decide)).1 (Or.inl rfl)

/-- C2 amended: with both edge endpoints resolving and a nonnegative
base distance, the edge cost is monotone non-decreasing in the stored
congestion score provided every flood severity present is nonnegative;
and monotone non-decreasing in the severity of any single zone over
strictly positive severities, provided the congestion read is
nonnegative and the remaining severities are nonnegative.  (The code's
`severity || 1` makes severity `0` behave as `1`, so monotonicity fails
at `0`, and negative severities flip the sign of the cost.) -/
theorem C2_amended (hav : Point → Point → ℚ) (nodes : List Node)
    (aId bId : String) (a b : Node)
    (ha : lookupNode nodes aId = some a) (hb : lookupNode nodes bId = some b)
    (hbase : 0 ≤ hav ⟨a.lat, a.lng⟩ ⟨b.lat, b.lng⟩) :
    (∀ (floodsList : List FloodZone) (tm tm' : List (String × ℚ)),
      (∀ f ∈ floodsList, ∀ s, f.severity = some s → 0 ≤ s) →
      trafficOf tm aId bId ≤ trafficOf tm' aId bId →
      NumV.le (edgeCost hav nodes tm floodsList aId bId)
        (edgeCost hav nodes tm' floodsList aId bId)) ∧
    (∀ (tm : List (String × ℚ)) (pre post : List FloodZone)
      (poly : List Point) (s s' : ℚ),
      0 ≤ trafficOf tm aId bId →
      (∀ f ∈ pre ++ post, ∀ t, f.severity = some t → 0 ≤ t) →
      0 < s → s ≤ s' →
      NumV.le (edgeCost hav nodes tm (pre ++ ⟨poly, some s⟩ :: post) aId bId)
        (edgeCost hav nodes tm (pre ++ ⟨poly, some s'⟩ :: post) aId bId)) := by
  constructor
  · intro fl tm tm' hsev htra
    rw [edgeCost_eq_fin hav nodes tm fl aId bId a b ha hb,
      edgeCost_eq_fin hav nodes tm' fl aId bId a b ha hb]
    show _ * _ ≤ _ * _
    have hF := floodFactor_nonneg ⟨(a.lat + b.lat) / 2, (a.lng + b.lng) / 2⟩ fl hsev
    have h1 : 1 + 2 * trafficOf tm aId bId ≤ 1 + 2 * trafficOf tm' aId bId := by
      linarith
    exact mul_le_mul_of_nonneg_right (mul_le_mul_of_nonneg_left h1 hbase) hF
  · intro tm pre post poly s s' htra hsev hs hss
    rw [edgeCost_eq_fin hav nodes tm _ aId bId a b ha hb,
      edgeCost_eq_fin hav nodes tm _ aId bId a b ha hb]
    show _ * _ ≤ _ * _
    rw [List.map_append, List.map_cons, List.prod_append, List.prod_cons,
      List.map_append, List.map_cons, List.prod_append, List.prod_cons]
    have hK : 0 ≤ hav ⟨a.lat, a.lng⟩ ⟨b.lat, b.lng⟩ *
        (1 + 2 * trafficOf tm aId bId) :=
      mul_nonneg hbase (by linarith)
    have hF1 := floodFactor_nonneg ⟨(a.lat + b.lat) / 2, (a.lng + b.lng) / 2⟩ pre
      (fun f hf => hsev f (List.mem_append_left _ hf))
    have hF2 := floodFactor_nonneg ⟨(a.lat + b.lat) / 2, (a.lng + b.lng) / 2⟩ post
      (fun f hf => hsev f (List.mem_append_right _ hf))
    by_cases hin : pointInPolygon ⟨(a.lat + b.lat) / 2, (a.lng + b.lng) / 2⟩ poly
    · have he1 : effSeverity (some s) = s := by
        show (if s = 0 then (1 : ℚ) else s) = s
        rw [if_neg (ne_of_gt hs)]
      have he2 : effSeverity (some s') = s' := by
        show (if s' = 0 then (1 : ℚ) else s') = s'
        rw [if_neg (ne_of_gt (lt_of_lt_of_le hs hss))]
      simp only [hin, if_true, he1, he2]
      gcongr
    · simp only [eq_false hin, if_false]
      exact le_rfl

/-- Witness for C2 amended: raising congestion 1/4 to 1/2 does not
decrease the cost. -/
theorem C2_amended_witness :
    NumV.le
      (edgeCost havLin [⟨"A", 0, 0, []⟩, ⟨"B", 2, 0, []⟩] [("A_B", 1 / 4)] []
        "A" "B")
      (edgeCost havLin [⟨"A", 0, 0, []⟩, ⟨"B", 2, 0, []⟩] [("A_B", 1 / 2)] []
        "A" "B") :=
  (C2_amended havLin [⟨"A", 0, 0, []⟩, ⟨"B", 2, 0, []⟩] "A" "B"
      ⟨"A", 0, 0, []⟩ ⟨"B", 2, 0, []⟩ rfl rfl
      (by with_unfolding_all decide)).1 [] _ _
    (by intro f hf; simp at hf)
    (by with_unfolding_all decide)

/-- C5 amended: provided the distance function is nonnegative (as the
code's haversine is), every supplied traffic score is nonnegative, and
every flood severity present is nonnegative, the initial distance map is
nonnegative, every search iteration preserves nonnegativity of all
tentative distances, and the returned `distance_m` is nonnegative.
(Without those bounds the search assigns negative distances, since the
builder stores negative scores unnormalized.) -/
theorem C5_amended (hav : Point → Point → ℚ) (nodes : List Node)
    (trafficList : List TrafficRecord) (floodsList : List FloodZone)
    (srcPoint dstPoint : Point)
    (hhav : ∀ p q : Point, 0 ≤ hav p q)
    (htl : ∀ t ∈ trafficList, ∀ q : ℚ,
      t.congestionScore = some q ∨ t.score = some q → 0 ≤ q)
    (hfl : ∀ f ∈ floodsList, ∀ s, f.severity = some s → 0 ≤ s) :
    (∀ startId, distNonneg (initDist nodes startId)) ∧
    (∀ (u : String) (st : DState), distNonneg st.dist →
      distNonneg (dijkstraVisit hav nodes (buildTrafficMap trafficList)
        floodsList (buildAdj nodes) u st).dist) ∧
    (∀ (r : RouteResult) (d : ℚ),
      computeSafeRoute hav nodes trafficList floodsList srcPoint dstPoint =
        some r →
      r.distance_m = some d → 0 ≤ d) := by
  have htm : ∀ p ∈ buildTrafficMap trafficList, 0 ≤ p.2 :=
    buildTrafficMap_forall (fun q => 0 ≤ q) le_rfl trafficList htl
  refine ⟨fun startId => initDist_distNonneg nodes startId,
    fun u st h =>
      dijkstraVisit_distNonneg hav nodes _ floodsList _ u hhav htm hfl st h, ?_⟩
  intro r d hr hd
  simp only [computeSafeRoute] at hr
  split at hr
  next start endNode hstart hend =>
    split at hr
    next => exact absurd hr (by simp)
    next st hloop =>
      split at hr
      next hinf =>
        cases hr
        exact absurd hd (by simp)
      next dval hfin =>
        split at hr
        next => exact absurd hr (by simp)
        next pathNodes hwalk =>
          cases hr
          have hd' : dval = d := by simpa using hd
          have hstd : distNonneg st.dist :=
            dijkstraLoop_distNonneg hav nodes _ floodsList _ endNode.id hhav htm
              hfl _ _ st (initDist_distNonneg nodes start.id) hloop
          have hnn := lookupD_nonneg hstd endNode.id
          rw [hfin] at hnn
          exact hd' ▸ hnn
  next =>
    cases hr
    exact absurd hd (by simp)

/-- Witness for C5 amended: the clean two-node route has nonnegative
distance. -/
theorem C5_amended_witness : (0 : ℚ) ≤ 1 :=
  (C5_amended havLin [⟨"A", 0, 0, [.strId "B"]⟩, ⟨"B", 1, 0, [.strId "A"]⟩]
      [] [] ⟨0, 0⟩ ⟨1, 0⟩
      (fun p q => by unfold havLin; positivity)
      (fun t ht => absurd ht (List.not_mem_nil t))
      (fun f hf => absurd hf (List.not_mem_nil f))).2.2
    ⟨some "A", some "B", some 1, [⟨0, 0, "A"⟩, ⟨1, 0, "B"⟩]⟩ 1
    (by with_unfolding_all decide) rfl

/-- C7: when the snapped start and end both exist but the destination's
distance is still infinite when the search loop exits, the result is an
empty path with the snapped node ids still set (and no `distance_m`). -/
theorem C7_unreachable (hav : Point → Point → ℚ) (nodes : List Node)
    (trafficList : List TrafficRecord) (floodsList : List FloodZone)
    (srcPoint dstPoint : Point) (s e : Node) (st : DState)
    (hs : closestNode hav nodes srcPoint = some s)
    (he : closestNode hav nodes dstPoint = some e)
    (hloop : dijkstraLoop hav nodes (buildTrafficMap trafficList) floodsList
      (buildAdj nodes) e.id (nodes.length + 1)
      ⟨initDist nodes s.id, initPrev nodes, []⟩ = some st)
    (hinf : lookupD st.dist e.id = NumV.inf) :
    computeSafeRoute hav nodes trafficList floodsList srcPoint dstPoint =
      some ⟨some s.id, some e.id, none, []⟩ := by
  simp only [computeSafeRoute, hs, he, hloop, hinf]

/-- Witness for C7: two isolated nodes. -/
theorem C7_unreachable_witness :
    computeSafeRoute havLin [⟨"A", 0, 0, []⟩, ⟨"B", 1, 0, []⟩] [] []
      ⟨0, 0⟩ ⟨1, 0⟩ = some ⟨some "A", some "B", none, []⟩ :=
  C7_unreachable havLin [⟨"A", 0, 0, []⟩, ⟨"B", 1, 0, []⟩] [] [] ⟨0, 0⟩ ⟨1, 0⟩
    ⟨"A", 0, 0, []⟩ ⟨"B", 1, 0, []⟩
    ⟨[("A", .fin 0), ("B", .inf)], [("A", none), ("B", none)], ["A"]⟩
    (by with_unfolding_all decide) (by with_unfolding_all decide)
    (by with_unfolding_all decide) (by with_unfolding_all decide)

/-- C10 amended: provided every node id is a non-empty string,
`distance_m` is present in the result exactly when the returned path is
non-empty.  (A node with the empty-string id defeats this: `while (cur)`
stops on the falsy empty string, leaving an empty path next to a present
`distance_m`.) -/
theorem C10_amended (hav : Point → Point → ℚ) (nodes : List Node)
    (trafficList : List TrafficRecord) (floodsList : List FloodZone)
    (srcPoint dstPoint : Point) (r : RouteResult)
    (hids : ∀ n ∈ nodes, n.id ≠ "")
    (h : computeSafeRoute hav nodes trafficList floodsList srcPoint dstPoint =
      some r) :
    r.distance_m ≠ none ↔ r.path ≠ [] := by
  simp only [computeSafeRoute] at h
  split at h
  next start endNode hstart hend =>
    split at h
    next => exact absurd h (by simp)
    next st hloop =>
      split at h
      next hinf =>
        cases h
        simp
      next dval hfin =>
        split at h
        next => exact absurd h (by simp)
        next pathNodes hwalk =>
          cases h
          have heid : endNode.id ≠ "" := hids endNode (closestNode_mem hend)
          rw [walkPrev] at hwalk
          rw [if_neg heid] at hwalk
          have hpne : pathNodes ≠ [] := by
            rcases hlook : lookupNode nodes endNode.id with _ | n
            · rw [hlook] at hwalk
              exact absurd hwalk (by simp)
            · rw [hlook] at hwalk
              have hlen := walkPrev_length nodes st.prev _ _ _ _ hwalk
              simp only [List.length_cons, List.length_nil] at hlen
              intro hcon
              rw [hcon] at hlen
              simp at hlen
          constructor
          · intro _
            simpa using hpne
          · intro _
            simp
  next =>
    cases h
    simp

/-- Witness for C10 amended: a single-node graph with a non-empty id has
both a present distance and a non-empty path. -/
theorem C10_amended_witness :
    some (0 : ℚ) ≠ none ↔ [(⟨0, 0, "A"⟩ : PathPoint)] ≠ ([] : List PathPoint) :=
  C10_amended havLin [⟨"A", 0, 0, []⟩] [] [] ⟨0, 0⟩ ⟨0, 0⟩
    ⟨some "A", some "A", some 0, [⟨0, 0, "A"⟩]⟩
    (by
      intro n hn
      rw [List.mem_singleton] at hn
      subst hn
      decide)
    (by with_unfolding_all decide)

/-- C9: the search loop in `computeSafeRoute`, run with fuel
`|nodes| + 1`, always reaches a `break`: it returns a final state, and
on exit either no unvisited node remained or the selected node was the
destination. -/
theorem C9_termination (hav : Point → Point → ℚ) (nodes : List Node)
    (trafficList : List TrafficRecord) (floodsList : List FloodZone)
    (srcPoint dstPoint : Point) (s e : Node)
    (hs : closestNode hav nodes srcPoint = some s)
    (he : closestNode hav nodes dstPoint = some e) :
    ∃ st', dijkstraLoop hav nodes (buildTrafficMap trafficList) floodsList
        (buildAdj nodes) e.id (nodes.length + 1)
        ⟨initDist nodes s.id, initPrev nodes, []⟩ = some st' ∧
      (extractMin st'.dist st'.visited = none ∨
        extractMin st'.dist st'.visited = some e.id) := by
  apply dijkstraLoop_terminates
  · dsimp only
    have hsid : s.id ∈ nodes.map Node.id :=
      List.mem_map_of_mem Node.id (closestNode_mem hs)
    have h1 := List.length_filter_le
      (fun k => decide (k ∉ ([] : List String)))
      ((initDist nodes s.id).map Prod.fst)
    have h2 := initDist_keys_length nodes hsid
    omega
  · intro n hn
    exact initDist_keys_mem nodes s.id n hn

/-- Witness for C9: the loop on the 2-node graph halts with the
destination selected. -/
theorem C9_termination_witness :
    ∃ st', dijkstraLoop havLin [⟨"A", 0, 0, [.strId "B"]⟩, ⟨"B", 1, 0, [.strId "A"]⟩]
        (buildTrafficMap []) [] (buildAdj [⟨"A", 0, 0, [.strId "B"]⟩, ⟨"B", 1, 0, [.strId "A"]⟩])
        "B" (([⟨"A", 0, 0, [.strId "B"]⟩, ⟨"B", 1, 0, [.strId "A"]⟩] : List Node).length + 1)
        ⟨initDist [⟨"A", 0, 0, [.strId "B"]⟩, ⟨"B", 1, 0, [.strId "A"]⟩] "A",
          initPrev [⟨"A", 0, 0, [.strId "B"]⟩, ⟨"B", 1, 0, [.strId "A"]⟩], []⟩ =
          some st' ∧
      (extractMin st'.dist st'.visited = none ∨
        extractMin st'.dist st'.visited = some "B") :=
  C9_termination havLin [⟨"A", 0, 0, [.strId "B"]⟩, ⟨"B", 1, 0, [.strId "A"]⟩]
    [] [] ⟨0, 0⟩ ⟨1, 0⟩ ⟨"A", 0, 0, [.strId "B"]⟩ ⟨"B", 1, 0, [.strId "A"]⟩
    (by with_unfolding_all decide) (by with_unfolding_all decide)

/-- C8: a neighbor reference whose id does not resolve to a node-map key
is a dead edge: its edge cost is infinite, relaxing it leaves the search
state unchanged, and `computeSafeRoute` returns exactly what it would
return with that neighbor reference deleted. -/
theorem C8_malformed_neighbor (hav : Point → Point → ℚ)
    (tm : List (String × ℚ)) (trafficList : List TrafficRecord)
    (floodsList : List FloodZone) (srcPoint dstPoint : Point)
    (pre post : List Node) (n : Node) (nl1 nl2 : List NeighborRef)
    (ref : NeighborRef) (badId : String)
    (href : ref.toId = badId)
    (hn : n.neighbors = nl1 ++ ref :: nl2)
    (hbad : lookupNode (pre ++ n :: post) badId = none) :
    (∀ aId, edgeCost hav (pre ++ n :: post) tm floodsList aId badId = .inf) ∧
    (∀ (u : String) (st : DState),
      relaxOne hav (pre ++ n :: post) tm floodsList u st badId = st) ∧
    computeSafeRoute hav (pre ++ n :: post) trafficList floodsList srcPoint
        dstPoint =
      computeSafeRoute hav (pre ++ ⟨n.id, n.lat, n.lng, nl1 ++ nl2⟩ :: post)
        trafficList floodsList srcPoint dstPoint := by
  refine ⟨?_, ?_, ?_⟩
  · intro aId
    unfold edgeCost
    rw [hbad]
    cases lookupNode (pre ++ n :: post) aId <;> rfl
  · intro u st
    exact relaxOne_badId hav _ tm floodsList badId hbad u st
  · have hcore : (pre ++ n :: post).map nodeCore =
        (pre ++ ⟨n.id, n.lat, n.lng, nl1 ++ nl2⟩ :: post).map nodeCore := by
      simp [nodeCore]
    have hbad2 : lookupNode (pre ++ ⟨n.id, n.lat, n.lng, nl1 ++ nl2⟩ :: post)
        badId = none := by
      have hl := lookupNode_core hcore badId
      rw [hbad] at hl
      cases h2 : lookupNode (pre ++ ⟨n.id, n.lat, n.lng, nl1 ++ nl2⟩ :: post)
          badId with
      | none => rfl
      | some m => rw [h2] at hl; simp at hl
    have hrel := buildAdj_rel pre post n nl1 nl2 ref hn
    refine computeSafeRoute_congr hcore hrel.2 hbad2
      ⟨nl1.map NeighborRef.toId, nl2.map NeighborRef.toId, by rw [href], rfl⟩
      hav trafficList floodsList srcPoint dstPoint

/-- Witness for C8: deleting the dangling neighbor reference `"Z"` does
not change the result. -/
theorem C8_malformed_neighbor_witness :
    computeSafeRoute havLin [⟨"A", 0, 0, [.strId "Z"]⟩] [] [] ⟨0, 0⟩ ⟨0, 0⟩ =
      computeSafeRoute havLin [⟨"A", 0, 0, []⟩] [] [] ⟨0, 0⟩ ⟨0, 0⟩ :=
  (C8_malformed_neighbor havLin [] [] [] ⟨0, 0⟩ ⟨0, 0⟩ [] []
    ⟨"A", 0, 0, [.strId "Z"]⟩ [] [] (.strId "Z") "Z" rfl rfl
    (by with_unfolding_all decide)).2.2

end SmartTraffic
